import Mathlib

/-!
Verification of the flickr-backup repository.

The Python sources (`flickr/utils.py`, `flickr/handlers.py`) are shallowly
embedded below: pure string helpers become Lean functions on `List Char` /
`String`, Python `set` becomes `Finset String`, and the filesystem effects of
the handlers become explicit state passing over an `FS` record.
-/

namespace Flickr

/-! ## Embedding of `flickr/utils.py` -/

/-- Python `\w` on ASCII text: letters, digits and underscore.
The source regexes run on the NFKD-then-ASCII-encoded value, so only the
ASCII part of `\w` is reachable; this model covers exactly that. -/
def isWordChar (c : Char) : Bool :=
  c.isAlphanum || c = '_'

/-- Python `\s` (and `str.strip`) on ASCII text: space, tab, newline,
carriage return, vertical tab, form feed, and the separator control
characters FS, GS, RS, US (`\x1c`-`\x1f`), which CPython's Unicode
whitespace notion includes. -/
def isPySpace (c : Char) : Bool :=
  c = ' ' || c = '\t' || c = '\n' || c = '\r' || c = Char.ofNat 11 || c = Char.ofNat 12
    || c = Char.ofNat 28 || c = Char.ofNat 29 || c = Char.ofNat 30 || c = Char.ofNat 31

/-- Characters kept by `re.sub(r"[^\w\s\/\\-]", "", value)`: word characters,
whitespace, and the three characters `/`, `\`, `-`. -/
def keepChar (c : Char) : Bool :=
  isWordChar c || isPySpace c || c = '/' || c = '\\' || c = '-'

/-- Python `str.strip()`: drop leading and trailing whitespace. -/
def pyStrip (l : List Char) : List Char :=
  ((l.dropWhile isPySpace).reverse.dropWhile isPySpace).reverse

/-- The single characters rewritten to `-` by `re.sub(r"[\/\\]", "-", value)`. -/
def toDash (c : Char) : Char :=
  if c = '/' || c = '\\' then '-' else c

/-- Character class of `re.sub(r"[-\s]+", "_", value)`. -/
def isDashSpace (c : Char) : Bool :=
  c = '-' || isPySpace c

/-- `re.sub(r"[-\s]+", "_", value)`: every maximal run of dashes/whitespace
becomes a single underscore.  The boolean argument records whether the scanner
is currently inside such a run (the run's first character already emitted `_`). -/
def squashDashSpace : List Char → Bool → List Char
  | [], _ => []
  | c :: cs, inRun =>
    if isDashSpace c then
      (if inRun then squashDashSpace cs true else '_' :: squashDashSpace cs true)
    else
      c :: squashDashSpace cs false

/-- Body of `normalize` on the character list.  Models the
`allow_unicode=False` branch of `flickr/utils.py::normalize`:
`unicodedata.normalize("NFKD", value).encode("ascii", "ignore")` is modelled
by the leading ASCII filter (NFKD is the identity on ASCII characters, which
is the only regime the claims quantify over), followed by the three `re.sub`
steps with `strip` and `lower` in the source's order. -/
def normalizeData (l : List Char) : List Char :=
  squashDashSpace
    (((pyStrip ((l.filter (fun c => c.toNat < 128)).filter keepChar)).map
        Char.toLower).map toDash)
    false

/-- `flickr/utils.py::normalize` with `allow_unicode=False`, for ASCII input. -/
def normalize (value : String) : String :=
  ⟨normalizeData value.data⟩

/-- `flickr/utils.py::find_duplicates`: the nested `enumerate` loops that
union the pairwise intersections of all sets at distinct positions. -/
def find_duplicates (files_sets : List (Finset String)) : Finset String :=
  files_sets.enum.foldl
    (fun duplicates itarget =>
      files_sets.enum.foldl
        (fun dups jsubset =>
          if itarget.1 = jsubset.1 then dups
          else dups ∪ (itarget.2 ∩ jsubset.2))
        duplicates)
    ∅

example : normalize "My Trip/Paris 2020!" = "my_trip_paris_2020" := by decide
example : find_duplicates [{"a", "b"}, {"b", "c"}, {"d"}] = {"b"} := by decide
example : find_duplicates [] = ∅ := by decide
example : find_duplicates [{"a"}] = ∅ := by decide

/-! ## Embedding of `FlickrAlbumsHandler._get_pics_filenames`

The source compiles `rf".*_({'|'.join(pic_ids)})_.*"` and filters the
directory listing by `pattern.match`.  The pattern shape is fixed, so its
Python-`re` semantics is embedded directly: a filename matches iff at some
position reachable from the start without crossing a newline (`.*` does not
match `\n`) there is a literal `_`, then one of the alternatives, then a
literal `_`.  An alternative is a photo id read as a regex: within the
modelled domain its characters are either literal characters or `.`, which
matches any character except newline.  Note the ids are NOT `re.escape`d by
the source. -/

/-- One pattern character of a photo id against one filename character:
`.` matches anything but newline, every other modelled character is literal. -/
def idCharMatches (p c : Char) : Bool :=
  if p = '.' then c != '\n' else p == c

/-- `afterUnderscore id rest` holds iff `rest` starts with a segment matching
`id` followed by a literal `_` (the tail after that `_` is unconstrained,
exactly like the trailing `.*` of the compiled pattern under `re.match`). -/
def afterUnderscore : List Char → List Char → Bool
  | [], [] => false
  | [], c :: _ => c == '_'
  | _ :: _, [] => false
  | p :: ps, c :: cs => idCharMatches p c && afterUnderscore ps cs

/-- Does the pattern `_(alt1|...|altN)_.*` match at the current position? -/
def matchHere (alts : List (List Char)) : List Char → Bool
  | [] => false
  | c :: rest => c == '_' && alts.any (fun id => afterUnderscore id rest)

/-- `re.match` of `.*_(alt1|...|altN)_.*`: try every position reachable from
the start of the string through non-newline characters (the leading `.*`). -/
def matchFrom (alts : List (List Char)) : List Char → Bool
  | [] => false
  | c :: cs => matchHere alts (c :: cs) || (c != '\n' && matchFrom alts cs)

/-- The alternatives produced by `'|'.join(pic_ids)`: joining the empty list
yields the empty pattern, i.e. one empty alternative; otherwise one
alternative per id. -/
def joinAlternatives (pic_ids : List String) : List (List Char) :=
  if pic_ids.isEmpty then [[]] else pic_ids.map (fun id => id.data)

/-- `pattern.match(filename)` for `pattern = re.compile(rf".*_(ids)_.*")`. -/
def patternMatch (pic_ids : List String) (filename : String) : Bool :=
  matchFrom (joinAlternatives pic_ids) filename.data

/-- `FlickrAlbumsHandler._get_pics_filenames`, with the `os.listdir` result
passed in as `dir_content`:
`list(filter(pattern.match, dir_content))`. -/
def get_pics_filenames (dir_content : List String) (pic_ids : List String) :
    List String :=
  dir_content.filter (fun f => patternMatch pic_ids f)

/-! Spec-side reference predicate for the Photo Matcher claims: a filename
matches an id iff it contains `_<id>_` as a literal substring.  This follows
the spec's words and is compared against `get_pics_filenames` above. -/

/-- `containsSeg pat s`: `pat` occurs as a contiguous segment of `s`. -/
def containsSeg (pat : List Char) : List Char → Bool
  | [] => pat.isEmpty
  | c :: cs => pat.isPrefixOf (c :: cs) || containsSeg pat cs

/-- The literal string `_<id>_` that the spec says is searched for. -/
def literalPat (id : String) : List Char :=
  '_' :: id.data ++ ['_']

/-- Is the character a Python `re` metacharacter? -/
def isMetaChar (c : Char) : Bool :=
  ['.', '^', '$', '*', '+', '?', '(', ')', '[', ']',
   Char.ofNat 123, Char.ofNat 125, '|', '\\'].contains c

/-- No character of the string is a Python `re` metacharacter. -/
def allLiteral (s : String) : Bool :=
  s.data.all (fun c => !(isMetaChar c))

/-- The string contains no newline character. -/
def noNewline (s : String) : Bool :=
  s.data.all (fun c => c != '\n')

example : get_pics_filenames ["img_100_a.jpg", "img_200_b.jpg"] ["100"]
    = ["img_100_a.jpg"] := by decide
example : get_pics_filenames ["img_1x0_a.jpg"] ["1.0"] = ["img_1x0_a.jpg"] := by decide
example : containsSeg (literalPat "1.0") "img_1x0_a.jpg".data = false := by decide
example : get_pics_filenames ["img__weird.jpg"] [] = ["img__weird.jpg"] := by decide
example : get_pics_filenames ["img_100_a.jpg"] [] = [] := by decide

/-! ## C1: semantics of `find_duplicates` -/

/-- Membership in a fold that unions `f b` for every list element not
skipped by the predicate `P` (the `if i == j: continue` shape). -/
theorem mem_foldl_union_skip {β : Type} (P : β → Prop) [DecidablePred P]
    (f : β → Finset String) (l : List β) (init : Finset String) (x : String) :
    (x ∈ l.foldl (fun acc b => if P b then acc else acc ∪ f b) init) ↔
      x ∈ init ∨ ∃ b ∈ l, ¬P b ∧ x ∈ f b := by
  induction l generalizing init with
  | nil => simp
  | cons b l ih =>
    simp only [List.foldl_cons, ih, List.mem_cons]
    by_cases h : P b
    · simp only [if_pos h]
      constructor
      · rintro (hx | ⟨b', hb', hx⟩)
        · exact Or.inl hx
        · exact Or.inr ⟨b', Or.inr hb', hx⟩
      · rintro (hx | ⟨b', (rfl | hb'), hnp, hx⟩)
        · exact Or.inl hx
        · exact absurd h hnp
        · exact Or.inr ⟨b', hb', hnp, hx⟩
    · simp only [if_neg h, Finset.mem_union]
      constructor
      · rintro ((hx | hx) | ⟨b', hb', hnp, hx⟩)
        · exact Or.inl hx
        · exact Or.inr ⟨b, Or.inl rfl, h, hx⟩
        · exact Or.inr ⟨b', Or.inr hb', hnp, hx⟩
      · rintro (hx | ⟨b', (rfl | hb'), hnp, hx⟩)
        · exact Or.inl (Or.inl hx)
        · exact Or.inl (Or.inr hx)
        · exact Or.inr ⟨b', hb', hnp, hx⟩

/-- Membership after the outer `enumerate` loop of `find_duplicates`. -/
theorem mem_find_duplicates_foldl (sets : List (Finset String))
    (l : List (Nat × Finset String)) (init : Finset String) (x : String) :
    (x ∈ l.foldl
        (fun duplicates itarget =>
          sets.enum.foldl
            (fun dups jsubset =>
              if itarget.1 = jsubset.1 then dups
              else dups ∪ (itarget.2 ∩ jsubset.2))
            duplicates)
        init) ↔
      x ∈ init ∨ ∃ p ∈ l, ∃ q ∈ sets.enum, p.1 ≠ q.1 ∧ x ∈ p.2 ∧ x ∈ q.2 := by
  induction l generalizing init with
  | nil => simp
  | cons p l ih =>
    simp only [List.foldl_cons, ih, List.mem_cons]
    rw [mem_foldl_union_skip (fun q : Nat × Finset String => p.1 = q.1)
      (fun q : Nat × Finset String => p.2 ∩ q.2)]
    constructor
    · rintro ((hx | ⟨q, hq, hne, hx⟩) | ⟨p', hp', q, hq, hne, hx⟩)
      · exact Or.inl hx
      · exact Or.inr ⟨p, Or.inl rfl, q, hq, hne,
          (Finset.mem_inter.mp hx).1, (Finset.mem_inter.mp hx).2⟩
      · exact Or.inr ⟨p', Or.inr hp', q, hq, hne, hx⟩
    · rintro (hx | ⟨p', (rfl | hp'), q, hq, hne, hx1, hx2⟩)
      · exact Or.inl (Or.inl hx)
      · exact Or.inl (Or.inr ⟨q, hq, hne, Finset.mem_inter.mpr ⟨hx1, hx2⟩⟩)
      · exact Or.inr ⟨p', hp', q, hq, hne, hx1, hx2⟩

/-- C1: `find_duplicates` returns exactly the union of all pairwise
intersections over distinct indices — equivalently, the strings occurring in
at least two sets of the sequence, counting sets by position.  In particular
`find_duplicates [{"a","b"},{"b","c"},{"d"}] = {"b"}`, the empty sequence
gives the empty set, and any one-set sequence gives the empty set. -/
theorem find_duplicates_pairwise_spec :
    (∀ (l : List (Finset String)) (x : String),
      x ∈ find_duplicates l ↔
        ∃ (i j : Nat) (hi : i < l.length) (hj : j < l.length),
          i ≠ j ∧ x ∈ l.get ⟨i, hi⟩ ∧ x ∈ l.get ⟨j, hj⟩)
    ∧ find_duplicates [{"a", "b"}, {"b", "c"}, {"d"}] = {"b"}
    ∧ find_duplicates [] = ∅
    ∧ ∀ s : Finset String, find_duplicates [s] = ∅ := by
  have main : ∀ (l : List (Finset String)) (x : String),
      x ∈ find_duplicates l ↔
        ∃ (i j : Nat) (hi : i < l.length) (hj : j < l.length),
          i ≠ j ∧ x ∈ l.get ⟨i, hi⟩ ∧ x ∈ l.get ⟨j, hj⟩ := by
    intro l x
    rw [find_duplicates, mem_find_duplicates_foldl]
    simp only [Finset.not_mem_empty, false_or]
    constructor
    · rintro ⟨⟨i, s⟩, hp, ⟨j, t⟩, hq, hne, hx1, hx2⟩
      rw [List.mk_mem_enum_iff_getElem?] at hp hq
      have hi : i < l.length := by
        by_contra hlt
        rw [List.getElem?_eq_none (Nat.le_of_not_lt hlt)] at hp
        exact Option.noConfusion hp
      have hj : j < l.length := by
        by_contra hlt
        rw [List.getElem?_eq_none (Nat.le_of_not_lt hlt)] at hq
        exact Option.noConfusion hq
      refine ⟨i, j, hi, hj, hne, ?_, ?_⟩
      · rw [List.getElem?_eq_getElem hi] at hp
        rw [List.get_eq_getElem, Option.some_inj.mp hp]
        exact hx1
      · rw [List.getElem?_eq_getElem hj] at hq
        rw [List.get_eq_getElem, Option.some_inj.mp hq]
        exact hx2
    · rintro ⟨i, j, hi, hj, hne, hx1, hx2⟩
      refine ⟨(i, l.get ⟨i, hi⟩), ?_, (j, l.get ⟨j, hj⟩), ?_, hne, hx1, hx2⟩
      · rw [List.mk_mem_enum_iff_getElem?, List.getElem?_eq_getElem hi]
        simp [List.get_eq_getElem]
      · rw [List.mk_mem_enum_iff_getElem?, List.getElem?_eq_getElem hj]
        simp [List.get_eq_getElem]
  refine ⟨main, by decide, by decide, ?_⟩
  intro s
  rw [Finset.eq_empty_iff_forall_not_mem]
  intro x hx
  rcases (main [s] x).mp hx with ⟨i, j, hi, hj, hne, -, -⟩
  simp only [List.length_singleton] at hi hj
  omega

/-- Witness for C1 at a concrete input. -/
theorem find_duplicates_pairwise_spec_witness :
    "b" ∈ find_duplicates [{"a", "b"}, {"b", "c"}, {"d"}] ↔
      ∃ (i j : Nat) (hi : i < ([{"a", "b"}, {"b", "c"}, {"d"}] : List (Finset String)).length)
        (hj : j < ([{"a", "b"}, {"b", "c"}, {"d"}] : List (Finset String)).length),
        i ≠ j ∧ "b" ∈ ([{"a", "b"}, {"b", "c"}, {"d"}] : List (Finset String)).get ⟨i, hi⟩
          ∧ "b" ∈ ([{"a", "b"}, {"b", "c"}, {"d"}] : List (Finset String)).get ⟨j, hj⟩ :=
  find_duplicates_pairwise_spec.1 [{"a", "b"}, {"b", "c"}, {"d"}] "b"

/-! ## C2 / C5: semantics of the compiled filename pattern -/

/-- For an id without metacharacters, matching the id-then-underscore part of
the pattern is exactly "the rest starts with `id` followed by `_`". -/
theorem afterUnderscore_iff (id : List Char)
    (hlit : ∀ c ∈ id, isMetaChar c = false) :
    ∀ rest, afterUnderscore id rest = true ↔ ∃ t, rest = id ++ '_' :: t := by
  induction id with
  | nil =>
    intro rest
    cases rest with
    | nil => simp [afterUnderscore]
    | cons c cs =>
      simp only [afterUnderscore, List.nil_append, beq_iff_eq]
      constructor
      · intro h
        exact ⟨cs, by rw [h]⟩
      · rintro ⟨t, ht⟩
        exact (List.cons.injEq _ _ _ _ ▸ ht).1
  | cons p ps ih =>
    intro rest
    have hp : isMetaChar p = false := hlit p (List.mem_cons_self p ps)
    have hps : ∀ c ∈ ps, isMetaChar c = false :=
      fun c hc => hlit c (List.mem_cons_of_mem p hc)
    have hpdot : p ≠ '.' := by
      intro h
      rw [h] at hp
      exact absurd hp (by decide)
    cases rest with
    | nil =>
      simp only [afterUnderscore, List.cons_append]
      constructor
      · intro h
        exact absurd h (by decide)
      · rintro ⟨t, ht⟩
        exact absurd ht (by simp)
    | cons c cs =>
      simp only [afterUnderscore, idCharMatches, if_neg hpdot, Bool.and_eq_true,
        beq_iff_eq, ih hps, List.cons_append]
      constructor
      · rintro ⟨rfl, t, rfl⟩
        exact ⟨t, rfl⟩
      · rintro ⟨t, ht⟩
        obtain ⟨h1, h2⟩ := List.cons.injEq c cs p (ps ++ '_' :: t) ▸ ht
        exact ⟨h1.symm, t, h2⟩

/-- Matching `_(alts)_` at the current position, for literal alternatives. -/
theorem matchHere_iff (alts : List (List Char))
    (hlit : ∀ id ∈ alts, ∀ c ∈ id, isMetaChar c = false) :
    ∀ s, matchHere alts s = true ↔
      ∃ id ∈ alts, ∃ t, s = '_' :: (id ++ '_' :: t) := by
  intro s
  cases s with
  | nil => simp [matchHere]
  | cons c cs =>
    simp only [matchHere, Bool.and_eq_true, beq_iff_eq, List.any_eq_true]
    constructor
    · rintro ⟨rfl, id, hid, hmatch⟩
      obtain ⟨t, rfl⟩ := (afterUnderscore_iff id (hlit id hid) cs).mp hmatch
      exact ⟨id, hid, t, rfl⟩
    · rintro ⟨id, hid, t, ht⟩
      obtain ⟨h1, h2⟩ := List.cons.injEq c cs '_' (id ++ '_' :: t) ▸ ht
      exact ⟨h1, id, hid, (afterUnderscore_iff id (hlit id hid) cs).mpr ⟨t, h2⟩⟩

/-- `re.match` of the full `.*_(alts)_.*` pattern on a newline-free string:
it succeeds iff the string has `_`, an alternative, `_` somewhere inside. -/
theorem matchFrom_iff (alts : List (List Char))
    (hlit : ∀ id ∈ alts, ∀ c ∈ id, isMetaChar c = false) :
    ∀ s, (∀ c ∈ s, c ≠ '\n') →
      (matchFrom alts s = true ↔
        ∃ a t, ∃ id ∈ alts, s = a ++ '_' :: (id ++ '_' :: t)) := by
  intro s
  induction s with
  | nil =>
    intro _
    simp only [matchFrom, Bool.false_eq_true, false_iff]
    rintro ⟨a, t, id, hid, h⟩
    exact absurd h.symm (by simp)
  | cons c cs ih =>
    intro hnl
    have hc : c ≠ '\n' := hnl c (List.mem_cons_self c cs)
    have hcs : ∀ x ∈ cs, x ≠ '\n' := fun x hx => hnl x (List.mem_cons_of_mem c hx)
    simp only [matchFrom, Bool.or_eq_true, Bool.and_eq_true, bne_iff_ne, ne_eq,
      matchHere_iff alts hlit, ih hcs]
    constructor
    · rintro (⟨id, hid, t, ht⟩ | ⟨-, a, t, id, hid, rfl⟩)
      · exact ⟨[], t, id, hid, by rw [List.nil_append, ht]⟩
      · exact ⟨c :: a, t, id, hid, rfl⟩
    · rintro ⟨a, t, id, hid, ht⟩
      cases a with
      | nil =>
        rw [List.nil_append] at ht
        obtain ⟨h1, h2⟩ := List.cons.injEq c cs '_' (id ++ '_' :: t) ▸ ht
        exact Or.inl ⟨id, hid, t, by rw [h1, h2]⟩
      | cons d a' =>
        rw [List.cons_append] at ht
        obtain ⟨h1, h2⟩ := List.cons.injEq c cs d (a' ++ '_' :: (id ++ '_' :: t)) ▸ ht
        exact Or.inr ⟨hc, a', t, id, hid, h2⟩

/-- `containsSeg` is plain contiguous-substring occurrence. -/
theorem containsSeg_iff (pat : List Char) :
    ∀ s, containsSeg pat s = true ↔ ∃ a b, s = a ++ pat ++ b := by
  intro s
  induction s with
  | nil =>
    simp only [containsSeg, List.isEmpty_iff]
    constructor
    · rintro rfl
      exact ⟨[], [], rfl⟩
    · rintro ⟨a, b, h⟩
      rcases List.append_eq_nil.mp h.symm with ⟨h1, h2⟩
      exact (List.append_eq_nil.mp h1).2
  | cons c cs ih =>
    simp only [containsSeg, Bool.or_eq_true, List.isPrefixOf_iff_prefix, ih]
    constructor
    · rintro (⟨t, ht⟩ | ⟨a, b, rfl⟩)
      · exact ⟨[], t, by rw [List.nil_append, ht]⟩
      · exact ⟨c :: a, b, rfl⟩
    · rintro ⟨a, b, ht⟩
      cases a with
      | nil =>
        rw [List.nil_append] at ht
        exact Or.inl ⟨b, ht.symm⟩
      | cons d a' =>
        rw [List.cons_append, List.cons_append] at ht
        obtain ⟨h1, h2⟩ := List.cons.injEq c cs d (a' ++ pat ++ b) ▸ ht
        exact Or.inr ⟨a', b, h2⟩

/-- Per-filename equivalence: for a non-empty list of metacharacter-free ids
and a newline-free filename, the compiled pattern matches exactly when some
`_<id>_` occurs literally. -/
theorem patternMatch_eq_literal (pic_ids : List String) (f : String)
    (hne : pic_ids ≠ [])
    (hlit : ∀ id ∈ pic_ids, allLiteral id = true)
    (hnl : noNewline f = true) :
    patternMatch pic_ids f
      = pic_ids.any (fun id => containsSeg (literalPat id) f.data) := by
  have halts : ∀ id ∈ joinAlternatives pic_ids, ∀ c ∈ id, isMetaChar c = false := by
    intro id hid c hc
    rw [joinAlternatives, if_neg (by simp [List.isEmpty_iff, hne])] at hid
    obtain ⟨id0, hid0, rfl⟩ := List.mem_map.mp hid
    have := hlit id0 hid0
    rw [allLiteral, List.all_eq_true] at this
    simpa using this c hc
  have hnlf : ∀ c ∈ f.data, c ≠ '\n' := by
    rw [noNewline, List.all_eq_true] at hnl
    intro c hc
    simpa using hnl c hc
  rw [Bool.eq_iff_iff, patternMatch, matchFrom_iff _ halts _ hnlf, List.any_eq_true]
  constructor
  · rintro ⟨a, t, id, hid, hf⟩
    rw [joinAlternatives, if_neg (by simp [List.isEmpty_iff, hne])] at hid
    obtain ⟨id0, hid0, rfl⟩ := List.mem_map.mp hid
    refine ⟨id0, hid0, (containsSeg_iff (literalPat id0) f.data).mpr ⟨a, t, ?_⟩⟩
    rw [hf, literalPat]
    simp
  · rintro ⟨id0, hid0, hseg⟩
    obtain ⟨a, b, hf⟩ := (containsSeg_iff (literalPat id0) f.data).mp hseg
    refine ⟨a, b, id0.data, ?_, ?_⟩
    · rw [joinAlternatives, if_neg (by simp [List.isEmpty_iff, hne])]
      exact List.mem_map.mpr ⟨id0, hid0, rfl⟩
    · rw [hf, literalPat]
      simp

/-- C2 (amended): the Photo Matcher keeps, in the listing's order, exactly
the filenames containing `_<id>_` literally for some id — provided every id
is free of regex metacharacters (the source does not escape the ids) and the
filenames contain no newline; plus the concrete example from the spec. -/
theorem get_pics_filenames_literal_match :
    (∀ dir_content pic_ids : List String,
        pic_ids ≠ [] →
        (∀ id ∈ pic_ids, allLiteral id = true) →
        (∀ f ∈ dir_content, noNewline f = true) →
        get_pics_filenames dir_content pic_ids
          = dir_content.filter
              (fun f => pic_ids.any (fun id => containsSeg (literalPat id) f.data)))
    ∧ get_pics_filenames ["img_100_a.jpg", "img_200_b.jpg"] ["100"]
        = ["img_100_a.jpg"] := by
  refine ⟨?_, by decide⟩
  intro dir_content pic_ids hne hlit hnl
  rw [get_pics_filenames]
  exact List.filter_congr fun f hf => patternMatch_eq_literal pic_ids f hne hlit (hnl f hf)

/-- Witness for C2 at a concrete input. -/
theorem get_pics_filenames_literal_match_witness :
    get_pics_filenames ["img_100_a.jpg", "img_200_b.jpg"] ["100"]
      = (["img_100_a.jpg", "img_200_b.jpg"] : List String).filter
          (fun f => ["100"].any (fun id => containsSeg (literalPat id) f.data)) :=
  get_pics_filenames_literal_match.1 ["img_100_a.jpg", "img_200_b.jpg"] ["100"]
    (by decide) (by decide) (by decide)

/-- C2 counterexample: with the unescaped id `1.0` the compiled pattern's `.`
matches `x`, so `img_1x0_a.jpg` is returned although it does not contain the
literal substring `_1.0_`. -/
theorem get_pics_filenames_unescaped_dot_cex :
    get_pics_filenames ["img_1x0_a.jpg"] ["1.0"] = ["img_1x0_a.jpg"]
    ∧ (["img_1x0_a.jpg"] : List String).filter
        (fun f => ["1.0"].any (fun id => containsSeg (literalPat id) f.data)) = [] := by
  exact ⟨by decide, by decide⟩

/-- C5 (amended): with an empty id list the joined pattern is `.*_()_.*`; the
matcher raises no error and returns exactly the (newline-free) filenames that
contain two consecutive underscores. -/
theorem get_pics_filenames_empty_ids :
    ∀ dir_content : List String,
      (∀ f ∈ dir_content, noNewline f = true) →
      get_pics_filenames dir_content []
        = dir_content.filter (fun f => containsSeg ['_', '_'] f.data) := by
  intro dir_content hnl
  rw [get_pics_filenames]
  refine List.filter_congr fun f hf => ?_
  have hnlf : ∀ c ∈ f.data, c ≠ '\n' := by
    have := hnl f hf
    rw [noNewline, List.all_eq_true] at this
    intro c hc
    simpa using this c hc
  have halts : ∀ id ∈ joinAlternatives ([] : List String),
      ∀ c ∈ id, isMetaChar c = false := by
    intro id hid
    rw [joinAlternatives, if_pos (by decide)] at hid
    rw [List.mem_singleton.mp hid]
    intro c hc
    exact absurd hc (List.not_mem_nil c)
  rw [Bool.eq_iff_iff, patternMatch, matchFrom_iff _ halts _ hnlf,
    containsSeg_iff]
  constructor
  · rintro ⟨a, t, id, hid, hf⟩
    rw [joinAlternatives, if_pos (by decide)] at hid
    rw [List.mem_singleton.mp hid] at hf
    exact ⟨a, t, by rw [hf]; simp⟩
  · rintro ⟨a, b, hf⟩
    refine ⟨a, b, [], ?_, ?_⟩
    · rw [joinAlternatives, if_pos (by decide)]
      exact List.mem_singleton.mpr rfl
    · rw [hf]
      simp

/-- Witness for C5 at a concrete input. -/
theorem get_pics_filenames_empty_ids_witness :
    get_pics_filenames ["img__weird.jpg", "img_100_a.jpg"] []
      = (["img__weird.jpg", "img_100_a.jpg"] : List String).filter
          (fun f => containsSeg ['_', '_'] f.data) :=
  get_pics_filenames_empty_ids ["img__weird.jpg", "img_100_a.jpg"] (by decide)

/-- C5 counterexample: an empty id list does not give the empty match set —
a filename with two consecutive underscores is returned. -/
theorem get_pics_filenames_empty_ids_cex :
    get_pics_filenames ["img__weird.jpg"] [] = ["img__weird.jpg"] := by
  decide

/-! ## C3: the spec's `normalize` example -/

/-- C3 counterexample: the spec's expected value `"my_trip-paris_2020"` is
wrong — the final `re.sub(r"[-\s]+", "_", ...)` also rewrites the dash that
came from `/`. -/
theorem normalize_example_cex :
    normalize "My Trip/Paris 2020!" ≠ "my_trip-paris_2020" := by
  decide

/-- C3 (amended): `normalize("My Trip/Paris 2020!", allow_unicode=False)`
returns `"my_trip_paris_2020"`. -/
theorem normalize_example_value :
    normalize "My Trip/Paris 2020!" = "my_trip_paris_2020" := by
  decide

/-! ## C4: idempotence of `normalize` on ASCII input -/

/-- Characters that can appear in a normalized string: lowercase letters,
digits, underscore. -/
def isNormChar (c : Char) : Bool :=
  c.isLower || c.isDigit || c = '_'

/-- Reduce a goal about all ASCII characters to a finite check. -/
theorem ascii_char_cases (Q : Char → Prop) [DecidablePred Q]
    (h : ∀ n : Fin 128, Q (Char.ofNat n.val)) :
    ∀ c : Char, c.toNat < 128 → Q c := by
  intro c hc
  have hq := h ⟨c.toNat, hc⟩
  rwa [Char.ofNat_toNat] at hq

/-- Per-character behaviour of the `normalize` pipeline on kept ASCII
characters. -/
theorem keepChar_pipeline (c : Char) (hc : c.toNat < 128) :
    keepChar c = true →
      (toDash (Char.toLower c)).toNat < 128
        ∧ (isDashSpace (toDash (Char.toLower c)) = false →
            isNormChar (toDash (Char.toLower c)) = true) := by
  refine ascii_char_cases
    (fun c => keepChar c = true →
      (toDash (Char.toLower c)).toNat < 128
        ∧ (isDashSpace (toDash (Char.toLower c)) = false →
            isNormChar (toDash (Char.toLower c)) = true))
    (by decide) c hc

/-- Normalized characters are fixed by every stage of the pipeline. -/
theorem isNormChar_fixed (c : Char) (h : isNormChar c = true) :
    c.toNat < 128 ∧ keepChar c = true ∧ isPySpace c = false
      ∧ Char.toLower c = c ∧ toDash c = c ∧ isDashSpace c = false := by
  have hascii : c.toNat < 128 := by
    rw [isNormChar, Bool.or_eq_true, Bool.or_eq_true] at h
    rcases h with (h | h) | h
    · rw [Char.isLower, Bool.and_eq_true, decide_eq_true_eq, decide_eq_true_eq] at h
      have h2 : c.toNat ≤ 122 := h.2
      omega
    · rw [Char.isDigit, Bool.and_eq_true, decide_eq_true_eq, decide_eq_true_eq] at h
      have h2 : c.toNat ≤ 57 := h.2
      omega
    · rw [decide_eq_true_eq] at h
      rw [h]
      decide
  refine ⟨hascii, ?_⟩
  refine ascii_char_cases
    (fun c => isNormChar c = true →
      keepChar c = true ∧ isPySpace c = false ∧ Char.toLower c = c
        ∧ toDash c = c ∧ isDashSpace c = false)
    (by decide) c hascii h

/-- Membership through the run-squashing pass: an output character is either
the emitted underscore or an input character that is not dash/whitespace. -/
theorem mem_squashDashSpace (c : Char) :
    ∀ (l : List Char) (b : Bool), c ∈ squashDashSpace l b →
      c = '_' ∨ (c ∈ l ∧ isDashSpace c = false) := by
  intro l
  induction l with
  | nil => simp [squashDashSpace]
  | cons d l ih =>
    intro b hmem
    rw [squashDashSpace] at hmem
    by_cases hd : isDashSpace d
    · rw [if_pos hd] at hmem
      cases b with
      | true =>
        rcases ih true hmem with h | ⟨hmem', hc⟩
        · exact Or.inl h
        · exact Or.inr ⟨List.mem_cons_of_mem d hmem', hc⟩
      | false =>
        rcases List.mem_cons.mp hmem with rfl | hmem'
        · exact Or.inl rfl
        · rcases ih true hmem' with h | ⟨hmem'', hc⟩
          · exact Or.inl h
          · exact Or.inr ⟨List.mem_cons_of_mem d hmem'', hc⟩
    · rw [if_neg hd] at hmem
      rcases List.mem_cons.mp hmem with rfl | hmem'
      · exact Or.inr ⟨List.mem_cons_self c l, by simpa using hd⟩
      · rcases ih false hmem' with h | ⟨hmem'', hc⟩
        · exact Or.inl h
        · exact Or.inr ⟨List.mem_cons_of_mem d hmem'', hc⟩

/-- Membership through `pyStrip`. -/
theorem mem_pyStrip {c : Char} {l : List Char} (h : c ∈ pyStrip l) : c ∈ l := by
  rw [pyStrip] at h
  rw [List.mem_reverse] at h
  have h1 := (List.dropWhile_sublist isPySpace).subset h
  rw [List.mem_reverse] at h1
  exact (List.dropWhile_sublist isPySpace).subset h1

/-- Every character of a normalized string is a lowercase letter, a digit or
an underscore, and in particular ASCII. -/
theorem normalizeData_chars (l : List Char) :
    ∀ c ∈ normalizeData l, c.toNat < 128 ∧ isNormChar c = true := by
  intro c hc
  rw [normalizeData] at hc
  rcases mem_squashDashSpace c _ false hc with rfl | ⟨hmem, hds⟩
  · exact ⟨by decide, by decide⟩
  · obtain ⟨c1, hmem1, rfl⟩ := List.mem_map.mp hmem
    obtain ⟨k, hmemk, rfl⟩ := List.mem_map.mp hmem1
    have hk := mem_pyStrip hmemk
    rw [List.mem_filter] at hk
    obtain ⟨hk0, hkeep⟩ := hk
    rw [List.mem_filter, decide_eq_true_eq] at hk0
    obtain ⟨hp1, hp2⟩ := keepChar_pipeline k hk0.2 hkeep
    exact ⟨hp1, hp2 hds⟩

/-- `map f` is the identity on lists all of whose elements `f` fixes. -/
theorem map_eq_self_of {f : Char → Char} :
    ∀ l : List Char, (∀ c ∈ l, f c = c) → l.map f = l := by
  intro l
  induction l with
  | nil => intro _; rfl
  | cons c cs ih =>
    intro h
    rw [List.map_cons, h c (List.mem_cons_self c cs),
      ih fun x hx => h x (List.mem_cons_of_mem c hx)]

/-- `dropWhile` is the identity when no element satisfies the predicate. -/
theorem dropWhile_eq_self_of {p : Char → Bool} :
    ∀ l : List Char, (∀ c ∈ l, p c = false) → l.dropWhile p = l := by
  intro l h
  cases l with
  | nil => rfl
  | cons c cs =>
    rw [List.dropWhile_cons, if_neg (by simp [h c (List.mem_cons_self c cs)])]

/-- The squashing pass is the identity on dash/whitespace-free lists. -/
theorem squashDashSpace_eq_self_of :
    ∀ l : List Char, (∀ c ∈ l, isDashSpace c = false) →
      squashDashSpace l false = l := by
  intro l
  induction l with
  | nil => intro _; rfl
  | cons c cs ih =>
    intro h
    rw [squashDashSpace, if_neg (by simp [h c (List.mem_cons_self c cs)]),
      ih fun x hx => h x (List.mem_cons_of_mem c hx)]

/-- The whole pipeline fixes already-normalized lists. -/
theorem normalizeData_fixpoint (l : List Char)
    (h : ∀ c ∈ l, c.toNat < 128 ∧ isNormChar c = true) :
    normalizeData l = l := by
  have facts := fun c hc => isNormChar_fixed c (h c hc).2
  have h0 : l.filter (fun c => c.toNat < 128) = l :=
    List.filter_eq_self.mpr fun c hc => by simpa using (h c hc).1
  have h1 : l.filter keepChar = l :=
    List.filter_eq_self.mpr fun c hc => by simp [(facts c hc).2.1]
  have hstrip : pyStrip l = l := by
    rw [pyStrip, dropWhile_eq_self_of l fun c hc => (facts c hc).2.2.1,
      dropWhile_eq_self_of l.reverse fun c hc =>
        (facts c (List.mem_reverse.mp hc)).2.2.1,
      List.reverse_reverse]
  have h2 : l.map Char.toLower = l := map_eq_self_of l fun c hc => (facts c hc).2.2.2.1
  have h3 : l.map toDash = l := map_eq_self_of l fun c hc => (facts c hc).2.2.2.2.1
  rw [normalizeData, h0, h1, hstrip, h2, h3]
  exact squashDashSpace_eq_self_of l fun c hc => (facts c hc).2.2.2.2.2

/-- C4: `normalize` is idempotent on ASCII input. -/
theorem normalize_idempotent :
    ∀ s : String, (∀ c ∈ s.data, c.toNat < 128) →
      normalize (normalize s) = normalize s := by
  intro s _
  show (⟨normalizeData (normalizeData s.data)⟩ : String) = ⟨normalizeData s.data⟩
  rw [normalizeData_fixpoint (normalizeData s.data) (normalizeData_chars s.data)]

/-- Witness for C4 at a concrete input. -/
theorem normalize_idempotent_witness :
    normalize (normalize "My Trip/Paris 2020!") = normalize "My Trip/Paris 2020!" :=
  normalize_idempotent "My Trip/Paris 2020!" (by decide)

/-! ## Embedding of `flickr/handlers.py`

Filesystem effects are made explicit: an `FS` record carries the set of
existing directories and a path-indexed list of file contents.  File contents
are modelled at parse granularity: a file either holds text that `json.load`
would parse into the albums structure, or other text on which `json.load`
raises.  Paths are taken as already canonical (`os.path.abspath` is dropped).
A Python exception is an `Except.error` carrying the message together with
the filesystem state at the moment of the raise. -/

/-- One entry of the `albums` array of `albums.json`. -/
structure RawAlbum where
  title : String
  photos : List String
deriving DecidableEq

/-- The parsed content of `albums.json`. -/
structure RawAlbums where
  albums : List RawAlbum
deriving DecidableEq

/-- Content of a file: either text parsing as the albums JSON, or other text. -/
inductive FileContent where
  | jsonAlbums (raw : RawAlbums)
  | text (s : String)
deriving DecidableEq

/-- Filesystem state: existing directories and files with their contents. -/
structure FS where
  dirs : List String
  files : List (String × FileContent)
deriving DecidableEq

/-- `os.path.join` for the slash-joined paths this program builds. -/
def pjoin (a b : String) : String :=
  a ++ "/" ++ b

/-- Content of the file at path `p`, if one exists. -/
def lookupFile (fs : FS) (p : String) : Option FileContent :=
  (fs.files.find? (fun q => q.1 == p)).map (fun q => q.2)

/-- `os.path.exists`: the path names an existing directory or file. -/
def pexists (fs : FS) (p : String) : Bool :=
  fs.dirs.contains p || fs.files.any (fun q => q.1 == p)

/-- `os.mkdir` (callers guard existence before calling). -/
def mkdir (fs : FS) (d : String) : FS :=
  { fs with dirs := fs.dirs ++ [d] }

/-- Create or overwrite the file at `p` with content `c`. -/
def writeFile (fs : FS) (p : String) (c : FileContent) : FS :=
  { fs with files :=
      if fs.files.any (fun q => q.1 == p) then
        fs.files.map (fun q => if q.1 == p then (p, c) else q)
      else
        fs.files ++ [(p, c)] }

/-- `os.path.basename`: the part of the path after the last slash. -/
def basename (p : String) : String :=
  ⟨p.data.foldl (fun acc c => if c = '/' then [] else acc ++ [c]) []⟩

/-- `shutil.copy2(src, dst_dir)` where `dst_dir` is a directory: copy the
file at `src` to `dst_dir/basename(src)`; a missing source raises. -/
def copy2 (fs : FS) (src dst_dir : String) : Except (String × FS) FS :=
  match lookupFile fs src with
  | some content => .ok (writeFile fs (pjoin dst_dir (basename src)) content)
  | none => .error ("FileNotFoundError", fs)

deriving instance DecidableEq for Except

/-- The `logger` calls of `flickr/handlers.py`, one constructor per format
string. -/
inductive LogMsg where
  | albumExists (name : String)
  | photoCopied (filename name : String)
  | albumCreated (name : String) (pics_num : Nat)
  | summary (num_albums num_pics num_duplicates : Nat)
  | sharedWritten
  | albumlessInfo (num : Nat)
deriving DecidableEq

/-- Class constants of `FlickrAlbumsHandler`. -/
def JSON_FILENAME : String := "albums.json"

/-- Duplicates registry filename. -/
def DUPLICATES_FILENAME : String := "duplicates.txt"

/-- Directory name for photos without album. -/
def ALBUMLESS_PICS_DIR : String := "__no_album__"

/-- Value stored per album title by `FlickrAlbums.__init__`. -/
structure AlbumMeta where
  normalized_title : String
  photos : List String
deriving DecidableEq

/-- Python `dict` insertion: overwrite in place if the key exists (keeping
its position), else append. -/
def dictInsert (d : List (String × AlbumMeta)) (k : String) (v : AlbumMeta) :
    List (String × AlbumMeta) :=
  if d.any (fun p => p.1 == k) then
    d.map (fun p => if p.1 == k then (k, v) else p)
  else
    d ++ [(k, v)]

/-- `FlickrAlbums`: the read-only albums mapping, keyed by title. -/
structure FlickrAlbums where
  albums : List (String × AlbumMeta)
deriving DecidableEq

/-- `FlickrAlbums.__init__`: build the dict from the raw `albums` array,
normalizing each title with `allow_unicode=False`. -/
def FlickrAlbums.ofRaw (raw : RawAlbums) : FlickrAlbums :=
  ⟨raw.albums.foldl
    (fun d album => dictInsert d album.title ⟨normalize album.title, album.photos⟩)
    []⟩

/-- The state held by `FlickrAlbumsHandler` after `__init__`. -/
structure Handler where
  albums : FlickrAlbums
  photos_dir : String
  output_dir : String
deriving DecidableEq

/-- `FlickrAlbumsHandler.__init__`: read and parse `json_dir/albums.json`
(a missing file or unparseable text raises before anything is mutated),
then resolve the output directory, creating it if it was given explicitly
and does not exist. -/
def handler_init (fs : FS) (json_dir photos_dir : String)
    (output_dir : Option String) : Except String Handler × FS :=
  match lookupFile fs (pjoin json_dir JSON_FILENAME) with
  | none => (.error "FileNotFoundError", fs)
  | some (.text _) => (.error "JSONDecodeError", fs)
  | some (.jsonAlbums raw) =>
    let albums := FlickrAlbums.ofRaw raw
    match output_dir with
    | some od =>
      if pexists fs od then
        (.ok ⟨albums, photos_dir, od⟩, fs)
      else
        (.ok ⟨albums, photos_dir, od⟩, mkdir fs od)
    | none => (.ok ⟨albums, photos_dir, photos_dir⟩, fs)

/-- The copy loop of `_create_album`: copy each filename from the photos
directory into the album directory, counting and logging each copy. -/
def copyLoop (photos_dir album_dir name : String) :
    FS → List String → Nat → Except (String × FS) (FS × List LogMsg × Nat)
  | fs, [], pics_num => .ok (fs, [], pics_num)
  | fs, filename :: rest, pics_num =>
    match copy2 fs (pjoin photos_dir filename) album_dir with
    | .error e => .error e
    | .ok fs1 =>
      match copyLoop photos_dir album_dir name fs1 rest (pics_num + 1) with
      | .error e => .error e
      | .ok (fs2, logs, n) => .ok (fs2, LogMsg.photoCopied filename name :: logs, n)

/-- `FlickrAlbumsHandler._create_album`.  The Python function returns `None`
on every path (the skip branch's bare `return` and falling off the end); the
returned value is modelled as `Option Nat` — always `none` — so that the
spec's claimed `photosCopiedCount` return can be stated against it. -/
def create_album (fs : FS) (output_dir photos_dir name : String)
    (pic_filenames : List String) :
    Except (String × FS) (FS × List LogMsg × Option Nat) :=
  let album_dir := pjoin output_dir name
  if pexists fs album_dir then
    .ok (fs, [LogMsg.albumExists name], none)
  else
    match copyLoop photos_dir album_dir name (mkdir fs album_dir) pic_filenames 0 with
    | .error e => .error e
    | .ok (fs2, logs, pics_num) =>
      .ok (fs2, logs ++ [LogMsg.albumCreated name pics_num], none)

/-- `FlickrAlbumsHandler._duplicates`: sort the duplicates, write them one
per line to `output_dir/duplicates.txt` (unconditionally), return the count. -/
def handler_duplicates (fs : FS) (output_dir : String)
    (pics_sets : List (Finset String)) : FS × Nat :=
  let duplicates := (find_duplicates pics_sets).sort (· ≤ ·)
  (writeFile fs (pjoin output_dir DUPLICATES_FILENAME)
      (.text (String.join (duplicates.map (fun filename => filename ++ "\n")))),
    duplicates.length)

/-! ## Filesystem lemmas -/

/-- After an in-place update of the entry keyed `p`, `find?` sees `(p, c)`. -/
theorem find?_map_update (p : String) (c : FileContent) :
    ∀ l : List (String × FileContent), l.any (fun q => q.1 == p) = true →
      (l.map (fun q => if q.1 == p then (p, c) else q)).find? (fun q => q.1 == p)
        = some (p, c) := by
  intro l
  induction l with
  | nil => simp
  | cons q l ih =>
    intro h
    by_cases hq : q.1 = p
    · rw [List.map_cons, if_pos (by simp [hq]),
        List.find?_cons_of_pos _ (by simp)]
    · rw [List.map_cons, if_neg (by simp [hq]),
        List.find?_cons_of_neg _ (by simp [hq])]
      rw [List.any_cons, Bool.or_eq_true] at h
      rcases h with h | h
      · exact absurd (by simpa using h) hq
      · exact ih h

/-- The in-place update of key `p` does not change `find?` at other keys. -/
theorem find?_map_update_ne (p q : String) (c : FileContent) (hne : q ≠ p) :
    ∀ l : List (String × FileContent),
      (l.map (fun r => if r.1 == p then (p, c) else r)).find? (fun r => r.1 == q)
        = l.find? (fun r => r.1 == q) := by
  intro l
  induction l with
  | nil => rfl
  | cons r l ih =>
    by_cases hr : r.1 = p
    · rw [List.map_cons, if_pos (by simp [hr]),
        List.find?_cons_of_neg _ (by simp [Ne.symm hne]),
        List.find?_cons_of_neg _ (by simp [hr, Ne.symm hne]), ih]
    · by_cases hrq : r.1 = q
      · rw [List.map_cons, if_neg (by simp [hr]),
          List.find?_cons_of_pos _ (by simp [hrq]),
          List.find?_cons_of_pos _ (by simp [hrq])]
      · rw [List.map_cons, if_neg (by simp [hr]),
          List.find?_cons_of_neg _ (by simp [hrq]),
          List.find?_cons_of_neg _ (by simp [hrq]), ih]

/-- Reading back the file just written. -/
theorem lookupFile_writeFile_self (fs : FS) (p : String) (c : FileContent) :
    lookupFile (writeFile fs p c) p = some c := by
  rw [lookupFile, writeFile]
  by_cases h : fs.files.any (fun q => q.1 == p) = true
  · simp only [if_pos h]
    rw [find?_map_update p c fs.files h]
    rfl
  · simp only [if_neg h]
    have hnone : fs.files.find? (fun q => q.1 == p) = none := by
      rw [List.find?_eq_none]
      intro x hx hpx
      exact h (List.any_eq_true.mpr ⟨x, hx, hpx⟩)
    rw [List.find?_append, hnone, Option.none_or,
      List.find?_cons_of_pos _ (by simp)]
    rfl

/-- Writing one file leaves every other path unchanged. -/
theorem lookupFile_writeFile_ne (fs : FS) (p q : String) (c : FileContent)
    (hne : q ≠ p) : lookupFile (writeFile fs p c) q = lookupFile fs q := by
  rw [lookupFile, writeFile, lookupFile]
  by_cases h : fs.files.any (fun r => r.1 == p) = true
  · simp only [if_pos h]
    rw [find?_map_update_ne p q c hne fs.files]
  · simp only [if_neg h]
    rw [List.find?_append, List.find?_cons_of_neg _ (by simp [Ne.symm hne]),
      List.find?_nil, Option.or_none]

/-- `writeFile` leaves the directory set unchanged. -/
theorem dirs_writeFile (fs : FS) (p : String) (c : FileContent) :
    (writeFile fs p c).dirs = fs.dirs := rfl

/-- `mkdir` leaves the files unchanged. -/
theorem lookupFile_mkdir (fs : FS) (d p : String) :
    lookupFile (mkdir fs d) p = lookupFile fs p := rfl

/-! ## C6: the Album Materializer skips existing directories -/

/-- C6: when `outputDir/name` already exists, `_create_album` copies
nothing, leaves the filesystem exactly as it was, logs the skip, and
returns without error. -/
theorem create_album_existing_skip :
    ∀ (fs : FS) (output_dir photos_dir name : String)
      (pic_filenames : List String),
      pexists fs (pjoin output_dir name) = true →
      create_album fs output_dir photos_dir name pic_filenames
        = .ok (fs, [LogMsg.albumExists name], none) := by
  intro fs output_dir photos_dir name pic_filenames h
  simp only [create_album, if_pos h]

/-- Witness for C6 at a concrete input: the album directory exists and holds
content that does not match the filename list; the state is untouched. -/
theorem create_album_existing_skip_witness :
    create_album
        ⟨["/out/alb"], [("/photos/f_1_x.jpg", FileContent.text "x"),
                        ("/out/alb/other.jpg", FileContent.text "y")]⟩
        "/out" "/photos" "alb" ["f_1_x.jpg"]
      = .ok (⟨["/out/alb"], [("/photos/f_1_x.jpg", FileContent.text "x"),
                             ("/out/alb/other.jpg", FileContent.text "y")]⟩,
          [LogMsg.albumExists "alb"], none) :=
  create_album_existing_skip _ "/out" "/photos" "alb" ["f_1_x.jpg"] (by decide)

/-! ## C7: manifest load failure aborts before any mutation -/

/-- C7: if `albums.json` is missing or does not parse, `__init__` raises and
the filesystem is returned exactly as it was — no directory is created and
no file is written. -/
theorem handler_init_failure_no_mutation :
    ∀ (fs : FS) (json_dir photos_dir : String) (output_dir : Option String),
      (lookupFile fs (pjoin json_dir JSON_FILENAME) = none
        ∨ ∃ s, lookupFile fs (pjoin json_dir JSON_FILENAME)
            = some (FileContent.text s)) →
      (∃ e, (handler_init fs json_dir photos_dir output_dir).1 = .error e)
        ∧ (handler_init fs json_dir photos_dir output_dir).2 = fs := by
  intro fs json_dir photos_dir output_dir h
  rcases h with h | ⟨s, h⟩
  · refine ⟨⟨"FileNotFoundError", ?_⟩, ?_⟩ <;> simp [handler_init, h]
  · refine ⟨⟨"JSONDecodeError", ?_⟩, ?_⟩ <;> simp [handler_init, h]

/-- Witness for C7 at a concrete input (missing manifest). -/
theorem handler_init_failure_no_mutation_witness :
    (∃ e, (handler_init ⟨[], []⟩ "/json" "/photos" (some "/out")).1 = .error e)
      ∧ (handler_init ⟨[], []⟩ "/json" "/photos" (some "/out")).2
          = (⟨[], []⟩ : FS) :=
  handler_init_failure_no_mutation ⟨[], []⟩ "/json" "/photos" (some "/out")
    (Or.inl (by decide))

/-! ## C8: the duplicates step -/

/-- C8: `_duplicates` always writes `outputDir/duplicates.txt` — also when
there are no duplicates — with exactly the duplicate filenames, one per
line, sorted, and returns their count. -/
theorem handler_duplicates_spec :
    ∀ (fs : FS) (output_dir : String) (pics_sets : List (Finset String)),
      lookupFile (handler_duplicates fs output_dir pics_sets).1
          (pjoin output_dir DUPLICATES_FILENAME)
        = some (FileContent.text (String.join
            (((find_duplicates pics_sets).sort (· ≤ ·)).map
              (fun filename => filename ++ "\n"))))
      ∧ (handler_duplicates fs output_dir pics_sets).2
          = (find_duplicates pics_sets).card
      ∧ List.Sorted (· ≤ ·) ((find_duplicates pics_sets).sort (· ≤ ·))
      ∧ ∀ x, x ∈ (find_duplicates pics_sets).sort (· ≤ ·)
          ↔ x ∈ find_duplicates pics_sets := by
  intro fs output_dir pics_sets
  refine ⟨?_, ?_, Finset.sort_sorted _ _, fun x => Finset.mem_sort _⟩
  · exact lookupFile_writeFile_self fs _ _
  · simp [handler_duplicates, Finset.length_sort]

/-! ## Path lemmas -/

/-- Splitting at a slash is unambiguous when the parts before the slash are
slash-free. -/
theorem slashfree_prefix_inj :
    ∀ u : List Char, (∀ c ∈ u, c ≠ '/') →
    ∀ v : List Char, (∀ c ∈ v, c ≠ '/') →
    ∀ r s : List Char, u ++ '/' :: r = v ++ '/' :: s → u = v ∧ r = s := by
  intro u
  induction u with
  | nil =>
    intro _ v hv r s h
    cases v with
    | nil =>
      rw [List.nil_append, List.nil_append] at h
      exact ⟨rfl, (List.cons.injEq _ _ _ _ ▸ h).2⟩
    | cons d v' =>
      rw [List.nil_append, List.cons_append] at h
      have hd := (List.cons.injEq _ _ _ _ ▸ h).1
      exact absurd hd.symm (hv d (List.mem_cons_self d v'))
  | cons c u' ih =>
    intro hu v hv r s h
    cases v with
    | nil =>
      rw [List.cons_append, List.nil_append] at h
      have hc := (List.cons.injEq _ _ _ _ ▸ h).1
      exact absurd hc (hu c (List.mem_cons_self c u'))
    | cons d v' =>
      rw [List.cons_append, List.cons_append] at h
      obtain ⟨h1, h2⟩ := List.cons.injEq _ _ _ _ ▸ h
      obtain ⟨h3, h4⟩ := ih (fun x hx => hu x (List.mem_cons_of_mem c hx)) v'
        (fun x hx => hv x (List.mem_cons_of_mem d hx)) r s h2
      exact ⟨by rw [h1, h3], h4⟩

/-- The character data of a joined path. -/
theorem pjoin_data (a b : String) :
    (pjoin a b).data = a.data ++ '/' :: b.data := by
  rw [pjoin, String.data_append, String.data_append, List.append_assoc]
  rfl

/-- Joining with a slash-free last component is injective. -/
theorem pjoin_last_inj (a b f g : String)
    (hf : ∀ c ∈ f.data, c ≠ '/') (hg : ∀ c ∈ g.data, c ≠ '/')
    (h : pjoin a f = pjoin b g) : a = b ∧ f = g := by
  have hd : f.data.reverse ++ '/' :: a.data.reverse
      = g.data.reverse ++ '/' :: b.data.reverse := by
    have h0 := congrArg (fun s : String => s.data.reverse) h
    simp only [pjoin_data, List.reverse_append, List.reverse_cons] at h0
    simpa [List.append_assoc] using h0
  obtain ⟨h1, h2⟩ := slashfree_prefix_inj f.data.reverse
    (fun c hc => hf c (List.mem_reverse.mp hc)) g.data.reverse
    (fun c hc => hg c (List.mem_reverse.mp hc)) a.data.reverse b.data.reverse hd
  have ha : a.data = b.data := by
    have := congrArg List.reverse h2
    simpa using this
  have hfg : f.data = g.data := by
    have := congrArg List.reverse h1
    simpa using this
  exact ⟨String.ext ha, String.ext hfg⟩

/-- The basename fold appends literal characters. -/
theorem basename_foldl_no_slash :
    ∀ l : List Char, (∀ c ∈ l, c ≠ '/') → ∀ acc : List Char,
      l.foldl (fun acc c => if c = '/' then [] else acc ++ [c]) acc = acc ++ l := by
  intro l
  induction l with
  | nil => intro _ acc; simp
  | cons c cs ih =>
    intro h acc
    rw [List.foldl_cons, if_neg (h c (List.mem_cons_self c cs)),
      ih (fun x hx => h x (List.mem_cons_of_mem c hx)) (acc ++ [c])]
    simp

/-- `basename (dir/f) = f` for a slash-free filename `f`. -/
theorem basename_pjoin (d f : String) (hf : ∀ c ∈ f.data, c ≠ '/') :
    basename (pjoin d f) = f := by
  rw [basename, pjoin_data, List.foldl_append, List.foldl_cons, if_pos rfl,
    basename_foldl_no_slash f.data hf []]
  rw [List.nil_append]

/-! ## C9: the Album Materializer on a fresh directory -/

/-- Behaviour of the copy loop when every source file exists (with slash-free
names) and the album directory is distinct from the photos directory: it
succeeds, copies every file into the album directory preserving its content,
logs one message per copy, touches no other path, and counts the files. -/
theorem copyLoop_ok (photos_dir album_dir name : String)
    (hdir : album_dir ≠ photos_dir) :
    ∀ (files : List String) (fs : FS) (n : Nat),
      (∀ f ∈ files, (∀ c ∈ f.data, c ≠ '/')
        ∧ (lookupFile fs (pjoin photos_dir f)).isSome = true) →
      ∃ fs',
        copyLoop photos_dir album_dir name fs files n
          = .ok (fs', files.map (fun f => LogMsg.photoCopied f name),
              n + files.length)
        ∧ fs'.dirs = fs.dirs
        ∧ (∀ p, (∀ f ∈ files, p ≠ pjoin album_dir f) →
            lookupFile fs' p = lookupFile fs p)
        ∧ (∀ f ∈ files, lookupFile fs' (pjoin album_dir f)
            = lookupFile fs (pjoin photos_dir f)) := by
  intro files
  induction files with
  | nil =>
    intro fs n _
    exact ⟨fs, by simp [copyLoop], rfl, fun p _ => rfl, by simp⟩
  | cons f rest ih =>
    intro fs n hall
    obtain ⟨hslash, hsome⟩ := hall f (List.mem_cons_self f rest)
    obtain ⟨c, hc⟩ := Option.isSome_iff_exists.mp hsome
    have htgt_src : ∀ g : String, (∀ x ∈ g.data, x ≠ '/') →
        pjoin album_dir f ≠ pjoin photos_dir g := by
      intro g hg heq
      exact hdir (pjoin_last_inj album_dir photos_dir f g hslash hg heq).1
    set fs1 := writeFile fs (pjoin album_dir f) c with hfs1
    have hcopy : copy2 fs (pjoin photos_dir f) album_dir = .ok fs1 := by
      rw [copy2, hc, basename_pjoin photos_dir f hslash]
    have hrest : ∀ g ∈ rest, (∀ x ∈ g.data, x ≠ '/')
        ∧ (lookupFile fs1 (pjoin photos_dir g)).isSome = true := by
      intro g hgmem
      obtain ⟨hgs, hgsome⟩ := hall g (List.mem_cons_of_mem f hgmem)
      refine ⟨hgs, ?_⟩
      rw [hfs1, lookupFile_writeFile_ne fs _ _ c
        fun heq => htgt_src g hgs heq.symm]
      exact hgsome
    obtain ⟨fs2, heq, hdirs, hframe, hcontent⟩ := ih fs1 (n + 1) hrest
    refine ⟨fs2, ?_, ?_, ?_, ?_⟩
    · rw [copyLoop, hcopy]
      dsimp only
      rw [heq]
      dsimp only
      have hn : n + 1 + rest.length = n + (f :: rest).length := by
        simp only [List.length_cons]
        omega
      rw [hn, List.map_cons]
    · rw [hdirs, hfs1]
      rfl
    · intro p hp
      rw [hframe p fun g hg => hp g (List.mem_cons_of_mem f hg), hfs1,
        lookupFile_writeFile_ne fs _ _ c (hp f (List.mem_cons_self f rest))]
    · intro g hgmem
      rcases List.mem_cons.mp hgmem with rfl | hgrest
      · by_cases hin : g ∈ rest
        · rw [hcontent g hin, hfs1, lookupFile_writeFile_ne fs _ _ c
            fun heq => htgt_src g hslash heq.symm]
        · have hne_rest : ∀ x ∈ rest, pjoin album_dir g ≠ pjoin album_dir x := by
            intro x hx heq
            obtain ⟨hxs, -⟩ := hrest x hx
            exact hin ((pjoin_last_inj album_dir album_dir g x hslash hxs heq).2 ▸ hx)
          rw [hframe _ hne_rest, hfs1, lookupFile_writeFile_self, hc]
      · obtain ⟨hgs, -⟩ := hrest g hgrest
        rw [hcontent g hgrest, hfs1, lookupFile_writeFile_ne fs _ _ c
          fun heq => htgt_src g hgs heq.symm]

/-- C9 (amended): when `outputDir/name` does not exist, `_create_album`
creates the directory, copies every listed file into it (content preserved),
and reports — in its final log line, not as a return value — a copy count
equal to the length of the filename sequence; the Python function itself
returns `None`.  The source files are required to exist under the photos
directory with slash-free names, and the fresh album directory must not be
the photos directory itself. -/
theorem create_album_fresh_spec :
    ∀ (fs : FS) (output_dir photos_dir name : String)
      (pic_filenames : List String),
      pexists fs (pjoin output_dir name) = false →
      pjoin output_dir name ≠ photos_dir →
      (∀ f ∈ pic_filenames, (∀ c ∈ f.data, c ≠ '/')
        ∧ (lookupFile fs (pjoin photos_dir f)).isSome = true) →
      ∃ fs',
        create_album fs output_dir photos_dir name pic_filenames
          = .ok (fs',
              pic_filenames.map (fun f => LogMsg.photoCopied f name)
                ++ [LogMsg.albumCreated name pic_filenames.length], none)
        ∧ fs'.dirs = fs.dirs ++ [pjoin output_dir name]
        ∧ (∀ f ∈ pic_filenames,
            lookupFile fs' (pjoin (pjoin output_dir name) f)
              = lookupFile fs (pjoin photos_dir f)) := by
  intro fs output_dir photos_dir name pic_filenames hfresh hne hsrc
  have hsrc' : ∀ f ∈ pic_filenames, (∀ c ∈ f.data, c ≠ '/')
      ∧ (lookupFile (mkdir fs (pjoin output_dir name)) (pjoin photos_dir f)).isSome
          = true := by
    intro f hf
    rw [lookupFile_mkdir]
    exact hsrc f hf
  obtain ⟨fs', heq, hdirs, -, hcontent⟩ :=
    copyLoop_ok photos_dir (pjoin output_dir name) name hne pic_filenames
      (mkdir fs (pjoin output_dir name)) 0 hsrc'
  refine ⟨fs', ?_, ?_, ?_⟩
  · simp only [create_album]
    rw [if_neg (by simp [hfresh]), heq, Nat.zero_add]
  · rw [hdirs]
    rfl
  · intro f hf
    rw [hcontent f hf, lookupFile_mkdir]

/-- Witness for C9 at a concrete input. -/
theorem create_album_fresh_spec_witness :
    ∃ fs',
      create_album ⟨["/photos"], [("/photos/img_1_a.jpg", FileContent.text "A")]⟩
          "/photos" "/photos" "alb" ["img_1_a.jpg"]
        = .ok (fs',
            (["img_1_a.jpg"] : List String).map
                (fun f => LogMsg.photoCopied f "alb")
              ++ [LogMsg.albumCreated "alb" (["img_1_a.jpg"] : List String).length],
            none)
      ∧ fs'.dirs = ["/photos"] ++ [pjoin "/photos" "alb"]
      ∧ (∀ f ∈ (["img_1_a.jpg"] : List String),
          lookupFile fs' (pjoin (pjoin "/photos" "alb") f)
            = lookupFile ⟨["/photos"], [("/photos/img_1_a.jpg", FileContent.text "A")]⟩
                (pjoin "/photos" f)) :=
  create_album_fresh_spec
    ⟨["/photos"], [("/photos/img_1_a.jpg", FileContent.text "A")]⟩
    "/photos" "/photos" "alb" ["img_1_a.jpg"]
    (by decide) (by decide) (by decide)

/-- C9 counterexample: the Python function does not return the copy count —
on a run that copies one file its return value is `None`, not `1`. -/
theorem create_album_returns_none_cex :
    (create_album ⟨["/photos"], [("/photos/img_2_b.jpg", FileContent.text "B")]⟩
          "/photos" "/photos" "other" ["img_2_b.jpg"]).map (fun r => r.2.2)
        = .ok none
    ∧ (create_album ⟨["/photos"], [("/photos/img_2_b.jpg", FileContent.text "B")]⟩
          "/photos" "/photos" "other" ["img_2_b.jpg"]).map (fun r => r.2.2)
        ≠ .ok (some 1) := by
  exact ⟨by decide, by decide⟩

/-! ## Embedding of `FlickrAlbumsHandler.make` -/

/-- The name under which `entry` appears in `os.listdir dir`, if it is a
direct child of `dir`. -/
def childName (dir entry : String) : Option String :=
  if entry.startsWith (dir ++ "/") then
    let rest := entry.drop (dir ++ "/").length
    if rest.data.any (fun c => c == '/') || rest = "" then none else some rest
  else none

/-- `os.listdir`: names of the directories and files directly inside `dir`
(listing order is unspecified by the OS; the model lists directories before
files, each in state order). -/
def listdir (fs : FS) (dir : String) : List String :=
  fs.dirs.filterMap (childName dir) ++ fs.files.filterMap (fun q => childName dir q.1)

/-- The per-album loop of `make`: match the photo ids against the current
directory listing, create the album, and retain the matched set. -/
def makeLoop (h : Handler) :
    FS → List AlbumMeta → Except (String × FS) (FS × List LogMsg × List (Finset String))
  | fs, [] => .ok (fs, [], [])
  | fs, album_metadata :: rest =>
    let album_pics := get_pics_filenames (listdir fs h.photos_dir) album_metadata.photos
    match create_album fs h.output_dir h.photos_dir album_metadata.normalized_title
        album_pics with
    | .error e => .error e
    | .ok (fs1, logs1, _) =>
      match makeLoop h fs1 rest with
      | .error e => .error e
      | .ok (fs2, logs2, pics_sets) =>
        .ok (fs2, logs1 ++ logs2, album_pics.toFinset :: pics_sets)

/-- `FlickrAlbumsHandler._albumless_pics`: the regular files of the photos
directory not ending in `.json` and not in any album, created as the
reserved album when non-empty (Python iterates the set in unspecified order;
the model takes it sorted).  Returns the albumless count. -/
def albumless_pics (fs : FS) (h : Handler) (album_pics : Finset String) :
    Except (String × FS) (FS × List LogMsg × Nat) :=
  let all_pics := ((listdir fs h.photos_dir).filter
      (fun filename => (lookupFile fs (pjoin h.photos_dir filename)).isSome
        && !(filename.endsWith ".json"))).toFinset
  let no_album_pics := all_pics \ album_pics
  if no_album_pics = ∅ then
    .ok (fs, [], no_album_pics.card)
  else
    match create_album fs h.output_dir h.photos_dir ALBUMLESS_PICS_DIR
        (no_album_pics.sort (· ≤ ·)) with
    | .error e => .error e
    | .ok (fs1, logs1, _) => .ok (fs1, logs1, no_album_pics.card)

/-- `FlickrAlbumsHandler.make`: run the per-album loop, write the duplicates
registry, take the union of all matched sets with `set.union(*pics_sets)`
(which raises `TypeError` when `pics_sets` is empty, i.e. zero albums), run
the albumless step, and emit the summary log lines. -/
def make (fs : FS) (h : Handler) : Except (String × FS) (FS × List LogMsg) :=
  match makeLoop h fs (h.albums.albums.map (fun p => p.2)) with
  | .error e => .error e
  | .ok (fs1, logs1, pics_sets) =>
    let dup := handler_duplicates fs1 h.output_dir pics_sets
    match pics_sets with
    | [] => .error ("TypeError: set.union() needs an argument", dup.1)
    | s0 :: srest =>
      let album_pics := srest.foldl (fun a b => a ∪ b) s0
      match albumless_pics dup.1 h album_pics with
      | .error e => .error e
      | .ok (fs3, logs3, num_albumless) =>
        .ok (fs3, logs1 ++ logs3
            ++ [LogMsg.summary h.albums.albums.length album_pics.card dup.2,
                LogMsg.sharedWritten]
            ++ (if num_albumless ≠ 0 then [LogMsg.albumlessInfo num_albumless]
                else []))

/-! ## C10: `make` on an empty manifest -/

/-- `_duplicates` on an empty list of sets writes an empty registry. -/
theorem handler_duplicates_nil (fs : FS) (output_dir : String) :
    handler_duplicates fs output_dir []
      = (writeFile fs (pjoin output_dir DUPLICATES_FILENAME)
          (FileContent.text ""), 0) := by
  have h1 : find_duplicates [] = ∅ := rfl
  simp only [handler_duplicates, h1, Finset.sort_empty, List.map_nil,
    List.length_nil]
  rfl

/-- C10: with an empty albums manifest, `make` writes `duplicates.txt`
(empty) and then raises a `TypeError` at `set.union(*pics_sets)` — before
the albumless step and the summary: the resulting state differs from the
initial one exactly by the duplicates registry, and no log line has been
emitted. -/
theorem make_empty_manifest_union_error :
    ∀ (fs : FS) (h : Handler), h.albums.albums = [] →
      make fs h
        = .error ("TypeError: set.union() needs an argument",
            writeFile fs (pjoin h.output_dir DUPLICATES_FILENAME)
              (FileContent.text "")) := by
  intro fs h hempty
  rw [make, hempty]
  simp only [List.map_nil, makeLoop]
  rw [handler_duplicates_nil]

/-- Witness for C10 at a concrete input. -/
theorem make_empty_manifest_union_error_witness :
    make ⟨["/photos"], [("/photos/albums.json", FileContent.jsonAlbums ⟨[]⟩)]⟩
        ⟨⟨[]⟩, "/photos", "/photos"⟩
      = .error ("TypeError: set.union() needs an argument",
          writeFile ⟨["/photos"], [("/photos/albums.json", FileContent.jsonAlbums ⟨[]⟩)]⟩
            (pjoin "/photos" DUPLICATES_FILENAME) (FileContent.text "")) :=
  make_empty_manifest_union_error
    ⟨["/photos"], [("/photos/albums.json", FileContent.jsonAlbums ⟨[]⟩)]⟩
    ⟨⟨[]⟩, "/photos", "/photos"⟩ rfl

end Flickr
